import Mathlib

/-!
# Analytics computation engine — verification

A shallow embedding of the analytics computation engine (snapshot series,
interval building, month-bucketed window resolution, tie-aware percentiles,
the growth/consistency scorer and the Main/Wing/None recommendation
partition), together with theorems settling the specification claims.

Modelling conventions:
* ISO date strings (`YYYY-MM-DD…`) compare lexicographically, which is
  order-isomorphic to naturals of the form `monthCode * 100 + dayCode`
  (`dayCode < 100`).  A date is therefore a natural number and the
  `YYYY-MM` month key of `getMonthKey` is the quotient by `100`.
* JavaScript floating point numbers are modelled as rationals in the exact
  (sort/percentile/interval) layer and as real numbers in the scoring layer,
  where `Math.log` / `Math.exp` occur.  `Number.isFinite` sanitisation is the
  identity in both models and is noted where it occurs in the source.
* Mutation (`player.points[i].expTotal = …`, `player.recommendation = …`)
  is replaced by functions returning the assigned values.
-/

namespace Analytics

/-- A snapshot date (see module docstring for the encoding). -/
abbrev SDate := Nat

/-- `getMonthKey`: the `YYYY-MM` month bucket key of a date — the quotient by
`100` under the numeric date encoding.  (The source's invalid-date fallback
to the empty key cannot arise in the model.) -/
def getMonthKey (d : SDate) : Nat := d / 100

/-- `diffDays`: `Math.max(1, Math.round((end−start)/DAY_MS))`.  Dates are
abstract codes here, so the elapsed-day count is modelled by truncated
subtraction; all claims treat the day count opaquely (only `days ≥ 1` and
`diffDays d d = 1` matter). -/
def diffDays (s e : SDate) : Nat := max 1 (e - s)

/-- The month list of `buildMonthBuckets`: month keys in first-occurrence
order. -/
def buildMonthKeys (dates : List SDate) : List Nat :=
  dates.foldl (fun acc d => if getMonthKey d ∈ acc then acc else acc ++ [getMonthKey d]) []

/-- One bucket of `buildMonthBuckets`'s `monthMap`: the items carrying the
given month key, in list order. -/
def monthBucket {α : Type} (getDate : α → SDate) (items : List α) (key : Nat) : List α :=
  items.filter (fun it => getMonthKey (getDate it) = key)

/-- `resolveWindowRange`: start/end indices into the month-key list for an
`N`-month window (`none` replaces the `{-1, -1}` sentinel). -/
def resolveWindowRange (monthKeys : List Nat) (windowMonths : Nat) : Option (Nat × Nat) :=
  if monthKeys.isEmpty then none
  else
    let endIndex := if 1 < monthKeys.length then monthKeys.length - 2 else 0
    let windowSize := max 1 windowMonths
    some (endIndex - (windowSize - 1), endIndex)

/-- The record produced by `resolveWindowMeta` (dates are always populated for
a nonempty input, so the `''` sentinels become the `none` of the `Option`
result below). -/
structure WindowMetaN where
  startDate : SDate
  endDate : SDate
  possibleIntervals : Nat
deriving DecidableEq

/-- `resolveWindowMeta`: resolve an `N`-month window over the snapshot date
list.  `none` replaces the `{startDate: '', endDate: '', possibleIntervals: 0}`
early return for an empty input.  The `!startDate`/`!endDate` guards of the
`windowDates` filter are dropped: they only fire on the `''` sentinel, which
cannot occur for a nonempty date list. -/
def resolveWindowMeta (dates : List SDate) (months : Nat) : Option WindowMetaN :=
  match resolveWindowRange (buildMonthKeys dates) months with
  | none => none
  | some (startIndex, endIndex) =>
    let monthKeys := buildMonthKeys dates
    let startDates := monthBucket id dates (monthKeys.getD startIndex 0)
    let endDates := monthBucket id dates (monthKeys.getD endIndex 0)
    let startDate := startDates.headD 0
    let endDate :=
      if 1 < endDates.length then endDates.getLastD 0
      else
        match monthKeys.get? (endIndex + 1) with
        | some nextKey => (monthBucket id dates nextKey).headD (endDates.getLastD 0)
        | none => endDates.getLastD 0
    let windowDates := dates.filter (fun d => startDate ≤ d ∧ d ≤ endDate)
    some ⟨startDate, endDate, windowDates.length - 1⟩

/-- Window resolution restated from the specification's words: `endIndex` is
the second-to-last populated month bucket (or the only bucket if just one
exists), `startIndex = max(0, endIndex − (N−1))`, `startDate` is the first
date of the start bucket, `endDate` is the last date of the end bucket if
that bucket has at least two dates, otherwise the first date of the next
bucket, falling back to the end bucket's only date when no next bucket
exists, and `possibleIntervals` is the count of snapshot dates within
`[startDate, endDate]` minus one. -/
def spec_resolveWindowMeta (dates : List SDate) (N : Nat) : Option WindowMetaN :=
  if dates.isEmpty then none
  else
    let monthKeys := buildMonthKeys dates
    let endIndex := if monthKeys.length = 1 then 0 else monthKeys.length - 2
    let startIndex := endIndex - (N - 1)
    let startBucket := monthBucket id dates (monthKeys.getD startIndex 0)
    let endBucket := monthBucket id dates (monthKeys.getD endIndex 0)
    let startDate := startBucket.headD 0
    let endDate :=
      if 2 ≤ endBucket.length then endBucket.getLastD 0
      else
        match monthKeys.get? (endIndex + 1) with
        | some nextKey => (monthBucket id dates nextKey).headD (endBucket.getLastD 0)
        | none => endBucket.getLastD 0
    some ⟨startDate, endDate,
      (dates.filter (fun d => startDate ≤ d ∧ d ≤ endDate)).length - 1⟩

/-- One point of a player's series, restricted to the fields the window and
interval machinery reads (`date` plus per-metric values; the exp-total
reconstruction uses the separate `ExpPoint` view of the same source type). -/
structure PointQ where
  date : SDate
  baseStats : ℚ
  level : ℚ
  mine : ℚ
  treasury : ℚ
deriving DecidableEq

/-- `IntervalMetric`: derived from two consecutive (or window-boundary)
points. -/
structure IntervalMetric (α : Type) where
  startDate : SDate
  endDate : SDate
  days : Nat
  delta : α
  perDay : α
deriving DecidableEq

/-- `buildIntervals`: pairwise consecutive differencing of a point list under
a metric selector. -/
def buildIntervals (sel : PointQ → ℚ) : List PointQ → List (IntervalMetric ℚ)
  | s :: e :: rest =>
    let delta := sel e - sel s
    let days := diffDays s.date e.date
    ⟨s.date, e.date, days, delta, delta / (days : ℚ)⟩ :: buildIntervals sel (e :: rest)
  | _ => []

/-- `resolveWindowPoints`, generalised over the carrier of the date (the
source fixes `α := PlayerSeriesPoint`): the player's own points nearest to
the resolved window boundaries.  `end = nextPoints[0] ?? endPoints.last ?? null`. -/
def resolveWindowPoints {α : Type} (dateOf : α → SDate) (points : List α) (months : Nat) :
    Option α × Option α :=
  if points.isEmpty then (none, none)
  else
    let monthKeys := buildMonthKeys (points.map dateOf)
    match resolveWindowRange monthKeys months with
    | none => (none, none)
    | some (startIndex, endIndex) =>
      let startPoints := monthBucket dateOf points (monthKeys.getD startIndex 0)
      let endPoints := monthBucket dateOf points (monthKeys.getD endIndex 0)
      let startPoint := startPoints.head?
      let endPoint :=
        if 1 < endPoints.length then endPoints.getLast?
        else
          match monthKeys.get? (endIndex + 1) with
          | some nextKey =>
            match (monthBucket dateOf points nextKey).head? with
            | some q => some q
            | none => endPoints.getLast?
          | none => endPoints.getLast?
      (startPoint, endPoint)

/-- `buildWindowMetric`: an `IntervalMetric` spanning the resolved window
boundary points. -/
def buildWindowMetric (s e : PointQ) (sel : PointQ → ℚ) : IntervalMetric ℚ :=
  let delta := sel e - sel s
  let days := diffDays s.date e.date
  ⟨s.date, e.date, days, delta, delta / (days : ℚ)⟩

/-- The per-window, per-metric assignment in `computeDataset`: the window
metric stays `null` exactly when `resolveWindowPoints` yields no start or no
end point, and is `buildWindowMetric start end sel` otherwise. -/
def windowMetricFor (points : List PointQ) (months : Nat) (sel : PointQ → ℚ) :
    Option (IntervalMetric ℚ) :=
  match resolveWindowPoints PointQ.date points months with
  | (some s, some e) => some (buildWindowMetric s e sel)
  | _ => none

/-! ## Percentile engine -/

/-- One entry of the key → numeric value map fed to `computePercentiles`
(keys as naturals, values as rationals). -/
abbrev PEntry := Nat × ℚ

/-- The ascending sort by value of `Array.from(values.entries()).sort((a, b) => a[1] - b[1])`.
Insertion sort is stable, like the JavaScript sort; stability is anyway
irrelevant to the output map, which only depends on value positions. -/
def sortEntries (entries : List PEntry) : List PEntry :=
  entries.insertionSort (fun a b => a.2 ≤ b.2)

/-- The percentile assigned to the tied run occupying sorted indices
`[i, j)` in a map of `n` entries: `rank = (i + (j − 1)) / 2` and
`percentile = n = 1 ? 1 : rank / (n − 1)`. -/
def pctOf (n i j : Nat) : ℚ :=
  if n = 1 then 1 else ((i : ℚ) + ((j : ℚ) - 1)) / 2 / ((n : ℚ) - 1)

/-- The run loop of `computePercentiles`: starting at sorted index `i`, group
the maximal run of entries tied with the head value, assign all of them the
average-rank percentile, and continue after the run. -/
def pctRun (n : Nat) : Nat → List PEntry → List PEntry
  | _, [] => []
  | i, e :: rest =>
    let run := e :: rest.takeWhile (fun f => f.2 = e.2)
    let p := pctOf n i (i + run.length)
    run.map (fun f => (f.1, p)) ++ pctRun n (i + run.length) (rest.dropWhile (fun f => f.2 = e.2))
termination_by _ l => l.length
decreasing_by
  simp only [List.length_cons]
  exact Nat.lt_succ_of_le (List.dropWhile_sublist _).length_le

/-- `computePercentiles`: tie-aware average-rank percentile over a numeric
map. -/
def computePercentiles (entries : List PEntry) : List PEntry :=
  pctRun entries.length 0 (sortEntries entries)

/-- Number of entries whose value is strictly below `v`.  In the ascending
sort this is the start index `i` of the maximal run of value `v`. -/
def countLT (entries : List PEntry) (v : ℚ) : Nat :=
  (entries.filter (fun e => e.2 < v)).length

/-- Number of entries whose value is at most `v`.  In the ascending sort this
is the exclusive end index `j` of the maximal run of value `v`. -/
def countLE (entries : List PEntry) (v : ℚ) : Nat :=
  (entries.filter (fun e => e.2 ≤ v)).length

/-! ## Experience-total reconstruction -/

/-- `EXP_LEVEL_THRESHOLD`. -/
def EXP_LEVEL_THRESHOLD : Int := 393

/-- `EXP_PER_LEVEL_HIGH`. -/
def EXP_PER_LEVEL_HIGH : Int := 1500000000

/-- The exp-related fields of a `PlayerSeriesPoint` (the fields
`computeExpDelta` reads; `?? 0` coalescing is `Option.getD 0`). -/
structure ExpPoint where
  level : Option Int
  exp : Option Int
  expNext : Option Int

/-- `resolveExpPerLevel`. -/
def resolveExpPerLevel (level expNext : Int) : Int :=
  if 0 < expNext then expNext
  else if EXP_LEVEL_THRESHOLD ≤ level then EXP_PER_LEVEL_HIGH else 0

/-- JavaScript `a || b` on numbers: `b` exactly when `a` is (`+`/`-`) zero
(`NaN` excluded by the model). -/
def jsOr (a b : Int) : Int := if a = 0 then b else a

/-- `computeExpDelta`: the experience gained between two consecutive points,
handling the level-threshold discontinuity of the exp curve. -/
def computeExpDelta (prev curr : ExpPoint) : Int :=
  let prevLevel := prev.level.getD 0
  let currLevel := curr.level.getD 0
  let prevExp := prev.exp.getD 0
  let currExp := curr.exp.getD 0
  let prevPerLevel := resolveExpPerLevel prevLevel (prev.expNext.getD 0)
  let currPerLevel := resolveExpPerLevel currLevel (curr.expNext.getD 0)
  if currLevel ≤ prevLevel then max 0 (currExp - prevExp)
  else
    let levelsGained := currLevel - prevLevel
    let fallbackPerLevel := jsOr prevPerLevel (jsOr currPerLevel EXP_PER_LEVEL_HIGH)
    if prevLevel < EXP_LEVEL_THRESHOLD ∧ EXP_LEVEL_THRESHOLD ≤ currLevel then
      let levelsBelow := max 0 (EXP_LEVEL_THRESHOLD - prevLevel)
      let levelsAbove := currLevel - max prevLevel EXP_LEVEL_THRESHOLD
      let d1 := max 0 (fallbackPerLevel - prevExp)
      let d2 := if 1 < levelsBelow then d1 + (levelsBelow - 1) * fallbackPerLevel else d1
      let d3 := if 0 < levelsAbove then d2 + levelsAbove * EXP_PER_LEVEL_HIGH else d2
      d3 + max 0 currExp
    else
      let perLevel := if EXP_LEVEL_THRESHOLD ≤ prevLevel then EXP_PER_LEVEL_HIGH else fallbackPerLevel
      let d1 := max 0 (perLevel - prevExp)
      let d2 := if 1 < levelsGained then d1 + (levelsGained - 1) * perLevel else d1
      d2 + max 0 currExp

/-- The running-total recursion of `applyExpTotals` (the source writes each
total into `points[i].expTotal`; the model returns the written list). -/
def applyExpTotalsAux (total : Int) (prev : ExpPoint) : List ExpPoint → List Int
  | [] => []
  | c :: rest =>
    let t := total + computeExpDelta prev c
    t :: applyExpTotalsAux t c rest

/-- `applyExpTotals`: the derived cumulative `expTotal` sequence over a
player's (date-sorted) point list. -/
def applyExpTotals : List ExpPoint → List Int
  | [] => []
  | p :: rest =>
    let t := max 0 (p.exp.getD 0)
    t :: applyExpTotalsAux t p rest

/-! ## Ranking and recommendation -/

/-- The Main/Wing/None tiers. -/
inductive Recommendation where
  | main
  | wing
  | nothing
deriving DecidableEq

/-- The descending sort by default-window score
(`players.sort((a, b) => scoreValue(b) - scoreValue(a))`).  Players are
modelled as `(playerKey, score)` pairs — the only fields this stage reads. -/
def sortByScoreDesc {K β : Type} [LinearOrder β] (players : List (K × β)) : List (K × β) :=
  players.insertionSort (fun a b => b.2 ≤ a.2)

/-- `mainList`: the player keys at sorted indices `[0, 50)` of the roster. -/
def mainList {K β : Type} [LinearOrder β] (players : List (K × β)) : List K :=
  ((sortByScoreDesc players).take 50).map Prod.fst

/-- `wingList`: the player keys at sorted indices `[50, 100)` of the roster. -/
def wingList {K β : Type} [LinearOrder β] (players : List (K × β)) : List K :=
  (((sortByScoreDesc players).drop 50).take 50).map Prod.fst

/-- `assignRecommendation`: membership lookup in the roster-derived main/wing
key sets (checked in that order).  `computeDataset` applies this same
function to every roster player and to every global player. -/
def recommendationFor {K β : Type} [DecidableEq K] [LinearOrder β]
    (roster : List (K × β)) (k : K) : Recommendation :=
  if k ∈ mainList roster then .main
  else if k ∈ wingList roster then .wing
  else .nothing

/-! ## Growth/Consistency scorer

`computeScoreForWindow` operates over floating point numbers (with `Math.log`
and `Math.exp`), modelled here over `ℝ`; this layer is therefore
noncomputable.  The `ScoreCtx` structure collects exactly the values the
function reads for the score-relevant outputs: the per-player growth inputs,
the globally precomputed baselines (already looked up for the player's
server, custom group and real guild), the window-filtered interval sources
and the resolved window metadata.  The debug-only outputs (`growthDebug`,
`percentileTop500`, ratio min/max tracking) are not score-relevant and are
omitted, except that the selected guild reference — `scoreDebug.growth.guildRefType`
and friends — is kept as the `guildRef` field of the result. -/

noncomputable section

/-- `clamp(value, min, max) = Math.min(max, Math.max(min, value))`. -/
def clamp (value lo hi : ℝ) : ℝ := min hi (max lo value)

/-- `SCORE_WEIGHTS.growth`. -/
def SCORE_WEIGHTS_growth : ℝ := 0.75

/-- `SCORE_WEIGHTS.consistency`. -/
def SCORE_WEIGHTS_consistency : ℝ := 0.25

/-- `GROWTH_MIN_GUILD_COUNT`. -/
def GROWTH_MIN_GUILD_COUNT : Nat := 2

/-- `CONSISTENCY_EPS`. -/
def CONSISTENCY_EPS : ℝ := 1e-6

/-- `CONSISTENCY_RATIO_MIN`. -/
def CONSISTENCY_RATIO_MIN : ℝ := 0.5

/-- `CONSISTENCY_RATIO_MAX`. -/
def CONSISTENCY_RATIO_MAX : ℝ := 1.5

/-- `CONSISTENCY_GAP_K`. -/
def CONSISTENCY_GAP_K : ℝ := 3

/-- `CONSISTENCY_MAD_K`. -/
def CONSISTENCY_MAD_K : ℝ := 6

/-- `MINE_CAP`. -/
def MINE_CAP : ℝ := 100

/-- `TREASURY_CAP`. -/
def TREASURY_CAP : ℝ := 45

/-- `average`: mean of a list, `0` when empty. -/
def averageR (values : List ℝ) : ℝ :=
  if values.isEmpty then 0 else values.sum / (values.length : ℝ)

/-- The ascending numeric sort used by `median`. -/
def sortR (values : List ℝ) : List ℝ := values.insertionSort (· ≤ ·)

/-- `median`: middle element of the sorted list (mean of the middle two for
even length), `0` when empty. -/
def medianR (values : List ℝ) : ℝ :=
  if values.isEmpty then 0
  else
    let sorted := sortR values
    let mid := sorted.length / 2
    if sorted.length % 2 = 0 then (sorted.getD (mid - 1) 0 + sorted.getD mid 0) / 2
    else sorted.getD mid 0

/-- `medianAbsoluteDeviation`. -/
def madR (values : List ℝ) : ℝ :=
  if values.isEmpty then 0
  else medianR (values.map (fun v => |v - medianR values|))

/-- `mapRatio`: squash a ratio through the logistic curve of its logarithm
(`0` for non-positive ratios; the `Number.isFinite` guard is the identity
over `ℝ`). -/
def mapRatio (ratio : ℝ) : ℝ :=
  if ratio ≤ 0 then 0
  else clamp (1 / (1 + Real.exp (-Real.log ratio))) 0 1

/-- `resolveRatio`: `value/primary` when `primary > 0`, else `value/fallback`
when `fallback > 0`, else the neutral `1`. -/
def resolveRatio (value primary fallback : ℝ) : ℝ :=
  if 0 < primary then value / primary
  else if 0 < fallback then value / fallback
  else 1

/-- `GrowthGroupStats`: the running pace sums of one baseline group. -/
structure GrowthGroupStats where
  sumAbs : ℝ
  sumRel : ℝ
  count : Nat

/-- `GrowthGroupAverages`: a finalized baseline group. -/
structure GrowthGroupAverages where
  abs : ℝ
  rel : ℝ
  count : Nat

/-- `addGrowthGroupStats` for one group (the `Number.isFinite` guard is the
identity over `ℝ`). -/
def addGrowthGroupStats (st : GrowthGroupStats) (absPerDay relPerDay : ℝ) : GrowthGroupStats :=
  ⟨st.sumAbs + absPerDay, st.sumRel + relPerDay, st.count + 1⟩

/-- The stats one baseline group accumulates from its members' sampled
`(absPerDay, relPerDay)` pace pairs. -/
def growthGroupStatsOf (paces : List (ℝ × ℝ)) : GrowthGroupStats :=
  paces.foldl (fun st p => addGrowthGroupStats st p.1 p.2) ⟨0, 0, 0⟩

/-- `finalizeGrowthGroupStats` for one group: averages, kept only for a
positive sample count. -/
def finalizeGrowthGroupStats (st : GrowthGroupStats) : Option GrowthGroupAverages :=
  if 0 < st.count then some ⟨st.sumAbs / (st.count : ℝ), st.sumRel / (st.count : ℝ), st.count⟩
  else none

/-- `isGuildValid`: a candidate baseline group is valid when it has at least
`GROWTH_MIN_GUILD_COUNT` sampled members and positive average absolute pace. -/
def isGuildValid : Option GrowthGroupAverages → Prop
  | some stats => GROWTH_MIN_GUILD_COUNT ≤ stats.count ∧ 0 < stats.abs
  | none => False

instance instDecidableIsGuildValid : (s : Option GrowthGroupAverages) → Decidable (isGuildValid s)
  | some _ => inferInstanceAs (Decidable (_ ∧ _))
  | none => inferInstanceAs (Decidable False)

/-- The selected guild growth reference. -/
inductive GuildRefType where
  | custom
  | real
  | srvAvg
deriving DecidableEq

/-- The guild-reference selection result (`guildAbsAvg`, `guildRelAvg`,
`guildRefType` in the source). -/
structure GuildRefSel where
  absAvg : ℝ
  relAvg : ℝ
  refType : GuildRefType

/-- The guild-reference selection of `computeScoreForWindow`: custom group if
valid, else real guild if valid, else the server average (with neutral
relative average `0` and reference type recorded as none/server). -/
def selectGuildReference (customStats realStats : Option GrowthGroupAverages)
    (serverAvgAbsPerDay : ℝ) : GuildRefSel :=
  if isGuildValid customStats then
    ⟨(customStats.map GrowthGroupAverages.abs).getD 0,
     (customStats.map GrowthGroupAverages.rel).getD 0, .custom⟩
  else if isGuildValid realStats then
    ⟨(realStats.map GrowthGroupAverages.abs).getD 0,
     (realStats.map GrowthGroupAverages.rel).getD 0, .real⟩
  else ⟨serverAvgAbsPerDay, 0, .srvAvg⟩

/-- The per-interval consistency ratio, capped: `perDay / serverAvg` when a
server baseline exists for the interval, the neutral `1` otherwise, clamped
to `[CONSISTENCY_RATIO_MIN, CONSISTENCY_RATIO_MAX]` (the `Number.isFinite`
re-check on the raw ratio is the identity over `ℝ`). -/
def consRatioCapped (perDay serverAvg : ℝ) : ℝ :=
  let ratioRaw := if 0 < serverAvg then perDay / serverAvg else 1
  clamp ratioRaw CONSISTENCY_RATIO_MIN CONSISTENCY_RATIO_MAX

/-- The resolved window metadata as read by `computeScoreForWindow`
(`none` models the `''` sentinel of an unresolvable boundary). -/
structure WindowMetaR where
  startDate : Option SDate
  endDate : Option SDate
  possibleIntervals : Nat

/-- A player point as read by `computeScoreForWindow` (level is optional;
the other stat fields are not read by the scorer except mine/treasury for
the cap flags). -/
structure PointR where
  date : SDate
  level : Option Int
  mine : ℝ
  treasury : ℝ

/-- The window filter on intervals: drop intervals starting before the
window's start date or ending after its end date (a missing boundary imposes
no constraint, like the `''` sentinel). -/
def intervalInWindow {α : Type} (wm : WindowMetaR) (iv : IntervalMetric α) : Bool :=
  (match wm.startDate with
   | some sd => decide (sd ≤ iv.startDate)
   | none => true) &&
  (match wm.endDate with
   | some ed => decide (iv.endDate ≤ ed)
   | none => true)

/-- `isWithinWindow` on a point date. -/
def isWithinWindow (d : SDate) (wm : WindowMetaR) : Bool :=
  (match wm.startDate with
   | some sd => decide (sd ≤ d)
   | none => true) &&
  (match wm.endDate with
   | some ed => decide (d ≤ ed)
   | none => true)

/-- The inputs `computeScoreForWindow` reads (see the section docstring). -/
structure ScoreCtx where
  windowMonths : Nat
  absPerDay : ℝ
  relPerDay : ℝ
  customStats : Option GrowthGroupAverages
  realStats : Option GrowthGroupAverages
  serverAvgRaw : ℝ
  avgTop100 : ℝ
  serverIntervalAvg : SDate → SDate → ℝ
  intervals : List (IntervalMetric ℝ)
  levelIntervals : List (IntervalMetric ℝ)
  points : List PointR
  windowMeta : WindowMetaR

/-- The player's baseStats intervals realized inside the window — the
`intervals` local of `computeScoreForWindow`, whose length is the realized
interval count entering the coverage ratio. -/
def realizedIntervals (ctx : ScoreCtx) : List (IntervalMetric ℝ) :=
  ctx.intervals.filter (fun iv => intervalInWindow ctx.windowMeta iv)

/-- The positive-duration realized window intervals feeding the consistency
ratios. -/
def consIntervals (ctx : ScoreCtx) : List (IntervalMetric ℝ) :=
  (realizedIntervals ctx).filter (fun iv => 0 < iv.days)

/-- The capped consistency ratios of the realized window intervals, each
against the server average for that same interval (`?? 0` when the server
map has no entry is folded into `serverIntervalAvg` returning `0`). -/
def consRatios (ctx : ScoreCtx) : List ℝ :=
  (consIntervals ctx).map
    (fun iv => consRatioCapped iv.perDay (ctx.serverIntervalAvg iv.startDate iv.endDate))

/-- The score-relevant outputs of `computeScoreForWindow` (`levelPenalty` and
`coverageFactor` appear in the source inside `scoreDebug.final`). -/
structure ScoreMeta where
  score : ℝ
  growthScore : ℝ
  consistencyScore : ℝ
  guildRef : GuildRefSel
  levelPer30 : Option ℝ
  lowLeveling : Bool
  levelPenalty : ℝ
  coverage : ℝ
  coverageFactor : ℝ
  mineCapped : Bool
  treasuryCapped : Bool

/-- `computeScoreForWindow`: the composite growth/consistency scorer for one
player and one window. -/
def computeScoreForWindow (ctx : ScoreCtx) : ScoreMeta :=
  let absPerDay := ctx.absPerDay
  let serverAvgAbsPerDay :=
    if 0 < ctx.serverAvgRaw then ctx.serverAvgRaw
    else if 0 < ctx.avgTop100 then ctx.avgTop100 else 0
  let absVsServerAvg := resolveRatio absPerDay serverAvgAbsPerDay ctx.avgTop100
  let guildRef := selectGuildReference ctx.customStats ctx.realStats serverAvgAbsPerDay
  let absNServer := mapRatio absVsServerAvg
  let relN : ℝ := 0.5
  let momN : ℝ := 0.5
  let absN := absNServer
  let growthScore := clamp (0.7 * absN + 0.2 * relN + 0.1 * momN) 0 1
  let ratios := consRatios ctx
  let xValues := ratios.map (fun r => Real.log (max r CONSISTENCY_EPS))
  let aboveShare :=
    if ratios.isEmpty then (0.5 : ℝ)
    else ((ratios.filter (fun r => 1 ≤ r)).length : ℝ) / (ratios.length : ℝ)
  let gap := if ratios.isEmpty then (1 : ℝ) else averageR (xValues.map (fun v => |v|))
  let closeness := if ratios.isEmpty then (0.5 : ℝ) else Real.exp (-CONSISTENCY_GAP_K * gap)
  let stability :=
    if 1 < xValues.length then Real.exp (-CONSISTENCY_MAD_K * madR xValues) else (0.5 : ℝ)
  let consBase := 0.4 * aboveShare + 0.35 * closeness + 0.25 * stability
  let consistencyScore := clamp consBase 0 1
  let wLevelIntervals := ctx.levelIntervals.filter (fun iv => intervalInWindow ctx.windowMeta iv)
  let levelWindowDays := (wLevelIntervals.map IntervalMetric.days).sum
  let windowPoints := ctx.points.filter (fun p => isWithinWindow p.date ctx.windowMeta)
  let levelStart := windowPoints.head?.bind PointR.level
  let levelEnd := windowPoints.getLast?.bind PointR.level
  let levelPer30 : Option ℝ :=
    match levelStart, levelEnd with
    | some ls, some le =>
      if 0 < levelWindowDays then some (((max 0 (le - ls) : Int) : ℝ) / (levelWindowDays : ℝ) * 30)
      else none
    | _, _ => none
  let lowLeveling := match levelPer30 with | some v => decide (v < 3) | none => false
  let levelPenalty := match levelPer30 with | some v => clamp ((3 - v) / 3) 0 1 | none => 0
  let coverage :=
    if 0 < ctx.windowMeta.possibleIntervals then
      ((realizedIntervals ctx).length : ℝ) / (ctx.windowMeta.possibleIntervals : ℝ)
    else 1
  let coverageFactor := clamp coverage 0.75 1
  let boundary := resolveWindowPoints PointR.date ctx.points ctx.windowMonths
  let mineCapped :=
    decide (MINE_CAP ≤ ((boundary.1.map PointR.mine).getD 0)) ||
    decide (MINE_CAP ≤ ((boundary.2.map PointR.mine).getD 0))
  let treasuryCapped :=
    decide (TREASURY_CAP ≤ ((boundary.1.map PointR.treasury).getD 0)) ||
    decide (TREASURY_CAP ≤ ((boundary.2.map PointR.treasury).getD 0))
  let scoreRaw := SCORE_WEIGHTS_growth * growthScore + SCORE_WEIGHTS_consistency * consistencyScore
  let scoreWithCoverage := scoreRaw * coverageFactor
  let scoreAfterLevelPenalty := scoreWithCoverage * (1 - 0.15 * levelPenalty)
  let score := clamp scoreAfterLevelPenalty 0 1
  { score := score
    growthScore := growthScore
    consistencyScore := consistencyScore
    guildRef := guildRef
    levelPer30 := levelPer30
    lowLeveling := lowLeveling
    levelPenalty := levelPenalty
    coverage := coverage
    coverageFactor := coverageFactor
    mineCapped := mineCapped
    treasuryCapped := treasuryCapped }

/-- The specification's per-interval consistency ratio (with the
baseline-free case amended to the neutral `1`): `perDay / serverAvg` when a
baseline exists, else `1`, clamped to `[0.5, 1.5]`. -/
def spec_consRatio (perDay serverAvg : ℝ) : ℝ :=
  clamp (if 0 < serverAvg then perDay / serverAvg else 1)
    CONSISTENCY_RATIO_MIN CONSISTENCY_RATIO_MAX

/-- The consistency sub-score restated from the specification's words (with
the baseline-free ratio amended to the neutral `1`): for each realized
interval inside the window, `ratio = intervalPerDay / serverAverageForThatSameInterval`
(`1` if no server baseline), clamped to `[0.5, 1.5]`; `x = ln(ratio)`;
`aboveShare` is the fraction of ratios at least `1`; `closeness = exp(−3·mean|x|)`;
`stability = exp(−6·MAD(x))` when at least two intervals exist and the
neutral `0.5` otherwise; the result is
`clamp(0.4·aboveShare + 0.35·closeness + 0.25·stability, 0, 1)` (with the
neutral `0.5` for `aboveShare` and `closeness` when no interval exists). -/
def spec_consistency (ctx : ScoreCtx) : ℝ :=
  let ratios := (consIntervals ctx).map
    (fun iv => spec_consRatio iv.perDay (ctx.serverIntervalAvg iv.startDate iv.endDate))
  let xs := ratios.map Real.log
  let aboveShare :=
    if ratios.isEmpty then (0.5 : ℝ)
    else ((ratios.filter (fun r => 1 ≤ r)).length : ℝ) / (ratios.length : ℝ)
  let closeness :=
    if ratios.isEmpty then (0.5 : ℝ)
    else Real.exp (-(3 : ℝ) * averageR (xs.map (fun x => |x|)))
  let stability :=
    if 2 ≤ xs.length then Real.exp (-(6 : ℝ) * madR xs) else (0.5 : ℝ)
  clamp (0.4 * aboveShare + 0.35 * closeness + 0.25 * stability) 0 1

end

/-! ## Helper lemmas -/

theorem clamp_le_hi (x lo hi : ℝ) : clamp x lo hi ≤ hi :=
  min_le_left _ _

theorem clamp_le_lo (x lo hi : ℝ) (h : lo ≤ hi) : lo ≤ clamp x lo hi :=
  le_min h (le_max_left _ _)

theorem resolveExpPerLevel_nonneg (level expNext : Int) : 0 ≤ resolveExpPerLevel level expNext := by
  unfold resolveExpPerLevel EXP_PER_LEVEL_HIGH
  split
  · omega
  · split <;> omega

theorem jsOr_nonneg {a b : Int} (ha : 0 ≤ a) (hb : 0 ≤ b) : 0 ≤ jsOr a b := by
  unfold jsOr
  split <;> assumption

theorem computeExpDelta_nonneg (prev curr : ExpPoint) : 0 ≤ computeExpDelta prev curr := by
  have hhigh : (0 : Int) ≤ EXP_PER_LEVEL_HIGH := by unfold EXP_PER_LEVEL_HIGH; omega
  have hfb : 0 ≤ jsOr (resolveExpPerLevel (prev.level.getD 0) (prev.expNext.getD 0))
      (jsOr (resolveExpPerLevel (curr.level.getD 0) (curr.expNext.getD 0)) EXP_PER_LEVEL_HIGH) :=
    jsOr_nonneg (resolveExpPerLevel_nonneg _ _)
      (jsOr_nonneg (resolveExpPerLevel_nonneg _ _) hhigh)
  simp only [computeExpDelta]
  split_ifs <;>
    (repeat' apply add_nonneg) <;>
    first
      | exact le_max_left _ _
      | exact mul_nonneg (by omega) hfb
      | exact mul_nonneg (by omega) hhigh

theorem chain'_applyExpTotalsAux :
    ∀ (points : List ExpPoint) (total : Int) (prev : ExpPoint),
      List.Chain' (· ≤ ·) (total :: applyExpTotalsAux total prev points)
  | [], _, _ => by simp [applyExpTotalsAux]
  | c :: rest, total, prev => by
    rw [applyExpTotalsAux]
    refine List.Chain'.cons ?_ (chain'_applyExpTotalsAux rest _ c)
    exact le_add_of_nonneg_right (computeExpDelta_nonneg prev c)

/-- C6: for every player, the derived cumulative `expTotal` sequence over the
date-sorted point list is monotonically non-decreasing — the statement is
universal over arbitrary point lists, so it covers in particular intervals
crossing the level-393 exp-curve threshold and intervals where the raw exp
counter decreases (the `max(0, endExp − startExp)` branch). -/
theorem expTotals_monotone (points : List ExpPoint) :
    List.Chain' (· ≤ ·) (applyExpTotals points) := by
  cases points with
  | nil => simp [applyExpTotals]
  | cons p rest =>
    rw [applyExpTotals]
    exact chain'_applyExpTotalsAux rest _ p

theorem buildMonthKeys_aux_ne_nil (l : List SDate) (acc : List Nat) (h : acc ≠ []) :
    l.foldl (fun acc d => if getMonthKey d ∈ acc then acc else acc ++ [getMonthKey d]) acc ≠ [] := by
  induction l generalizing acc with
  | nil => exact h
  | cons d rest ih =>
    simp only [List.foldl_cons]
    apply ih
    split
    · exact h
    · simp

theorem buildMonthKeys_ne_nil (dates : List SDate) (h : dates ≠ []) :
    buildMonthKeys dates ≠ [] := by
  cases dates with
  | nil => exact absurd rfl h
  | cons d rest =>
    unfold buildMonthKeys
    simp only [List.foldl_cons, List.not_mem_nil, if_false, List.nil_append]
    exact buildMonthKeys_aux_ne_nil rest [getMonthKey d] (by simp)

/-- C3: window resolution for `N` months over a snapshot-date list is the
pure function of that list described by the specification: `endIndex` is the
second-to-last populated month bucket (or the only one), `startIndex =
max(0, endIndex − (N−1))` (truncated subtraction), `startDate`/`endDate`
follow the bucket-boundary rules, and `possibleIntervals` is the count of
snapshot dates within `[startDate, endDate]` minus one. -/
theorem resolveWindowMeta_spec (dates : List SDate) (N : Nat) (hN : 1 ≤ N) :
    resolveWindowMeta dates N = spec_resolveWindowMeta dates N := by
  rcases eq_or_ne dates [] with h | h
  · subst h; rfl
  · have hmk : buildMonthKeys dates ≠ [] := buildMonthKeys_ne_nil dates h
    unfold resolveWindowMeta spec_resolveWindowMeta resolveWindowRange
    have hmkE : (buildMonthKeys dates).isEmpty = false := by
      simp [List.isEmpty_iff, hmk]
    have hdE : dates.isEmpty = false := by
      simp [List.isEmpty_iff, h]
    rw [hmkE, hdE]
    have hlen : 1 ≤ (buildMonthKeys dates).length := List.length_pos.mpr hmk
    have hend : (if 1 < (buildMonthKeys dates).length then (buildMonthKeys dates).length - 2 else 0)
        = (if (buildMonthKeys dates).length = 1 then 0 else (buildMonthKeys dates).length - 2) := by
      split_ifs <;> omega
    have hmax : max 1 N = N := max_eq_right hN
    simp only [Bool.false_eq_true, if_false, hmax, hend]
    rfl

theorem resolveWindowMeta_spec_witness :
    1 ≤ 3 ∧ resolveWindowMeta [101, 102, 201, 301] 3 = spec_resolveWindowMeta [101, 102, 201, 301] 3 :=
  ⟨by decide, resolveWindowMeta_spec [101, 102, 201, 301] 3 (by decide)⟩

/-- C10: when a window's `possibleIntervals` is `0`, the coverage ratio is
defined to be `1` (the division is guarded), so the computation is total and
such a window receives `coverageFactor = 1` — no coverage discount. -/
theorem coverage_zero_possible (ctx : ScoreCtx) (hp : ctx.windowMeta.possibleIntervals = 0) :
    (computeScoreForWindow ctx).coverage = 1 ∧ (computeScoreForWindow ctx).coverageFactor = 1 := by
  have hcov : (computeScoreForWindow ctx).coverage = 1 := by
    simp [computeScoreForWindow, hp]
  refine ⟨hcov, ?_⟩
  have : (computeScoreForWindow ctx).coverageFactor = clamp ((computeScoreForWindow ctx).coverage) 0.75 1 := by
    simp only [computeScoreForWindow]
  rw [this, hcov]
  unfold clamp
  norm_num

theorem coverage_zero_possible_witness :
    ({ windowMonths := 3, absPerDay := 0, relPerDay := 0, customStats := none, realStats := none,
       serverAvgRaw := 0, avgTop100 := 0, serverIntervalAvg := fun _ _ => 0, intervals := [],
       levelIntervals := [], points := [],
       windowMeta := ⟨none, none, 0⟩ } : ScoreCtx).windowMeta.possibleIntervals = 0 ∧
    (computeScoreForWindow
      { windowMonths := 3, absPerDay := 0, relPerDay := 0, customStats := none, realStats := none,
        serverAvgRaw := 0, avgTop100 := 0, serverIntervalAvg := fun _ _ => 0, intervals := [],
        levelIntervals := [], points := [],
        windowMeta := ⟨none, none, 0⟩ }).coverageFactor = 1 :=
  ⟨rfl, (coverage_zero_possible _ rfl).2⟩

/-- C1: for every scorer invocation (player × window) whose window has a
positive `possibleIntervals`, the final composite score equals
`clamp((0.75·growthScore + 0.25·consistencyScore) · coverageFactor · (1 − 0.15·levelPenalty), 0, 1)`
with `coverageFactor = clamp(realizedIntervals / possibleIntervals, 0.75, 1)`;
consequently the emitted score lies in `[0, 1]` and the coverage discount
factor never falls below `0.75` (nor exceeds `1`). -/
theorem score_final_formula (ctx : ScoreCtx) (hp : 0 < ctx.windowMeta.possibleIntervals) :
    (computeScoreForWindow ctx).score =
      clamp ((0.75 * (computeScoreForWindow ctx).growthScore +
              0.25 * (computeScoreForWindow ctx).consistencyScore) *
             clamp (((realizedIntervals ctx).length : ℝ) / (ctx.windowMeta.possibleIntervals : ℝ))
               0.75 1 *
             (1 - 0.15 * (computeScoreForWindow ctx).levelPenalty)) 0 1 ∧
    (computeScoreForWindow ctx).coverageFactor =
      clamp (((realizedIntervals ctx).length : ℝ) / (ctx.windowMeta.possibleIntervals : ℝ)) 0.75 1 ∧
    0 ≤ (computeScoreForWindow ctx).score ∧ (computeScoreForWindow ctx).score ≤ 1 ∧
    0.75 ≤ (computeScoreForWindow ctx).coverageFactor ∧
    (computeScoreForWindow ctx).coverageFactor ≤ 1 := by
  have hcf : (computeScoreForWindow ctx).coverageFactor =
      clamp (((realizedIntervals ctx).length : ℝ) / (ctx.windowMeta.possibleIntervals : ℝ)) 0.75 1 := by
    simp only [computeScoreForWindow, if_pos hp]
  have hscore : (computeScoreForWindow ctx).score =
      clamp ((SCORE_WEIGHTS_growth * (computeScoreForWindow ctx).growthScore +
              SCORE_WEIGHTS_consistency * (computeScoreForWindow ctx).consistencyScore) *
             (computeScoreForWindow ctx).coverageFactor *
             (1 - 0.15 * (computeScoreForWindow ctx).levelPenalty)) 0 1 := by
    simp only [computeScoreForWindow]
  refine ⟨?_, hcf, ?_, ?_, ?_, ?_⟩
  · rw [hscore, hcf]
    norm_num [SCORE_WEIGHTS_growth, SCORE_WEIGHTS_consistency]
  · rw [hscore]
    exact clamp_le_lo _ 0 1 (by norm_num)
  · rw [hscore]
    exact clamp_le_hi _ 0 1
  · rw [hcf]
    exact clamp_le_lo _ 0.75 1 (by norm_num)
  · rw [hcf]
    exact clamp_le_hi _ 0.75 1

theorem score_final_formula_witness :
    0 < ({ windowMonths := 3, absPerDay := 0, relPerDay := 0, customStats := none, realStats := none,
           serverAvgRaw := 0, avgTop100 := 0, serverIntervalAvg := fun _ _ => 0, intervals := [],
           levelIntervals := [], points := [],
           windowMeta := ⟨none, none, 1⟩ } : ScoreCtx).windowMeta.possibleIntervals ∧
    0 ≤ (computeScoreForWindow
      { windowMonths := 3, absPerDay := 0, relPerDay := 0, customStats := none, realStats := none,
        serverAvgRaw := 0, avgTop100 := 0, serverIntervalAvg := fun _ _ => 0, intervals := [],
        levelIntervals := [], points := [],
        windowMeta := ⟨none, none, 1⟩ }).score :=
  ⟨Nat.one_pos, (score_final_formula _ Nat.one_pos).2.2.1⟩

/-- C4 counterexample: the validity gate accepts a group of two sampled
members with paces `3` and `0` — of which only one is positive — because it
checks the sample count (`≥ 2`) and the positivity of the *average* pace, not
that two members individually have positive pace.  This falsifies the claim
that a candidate group is valid only if it has at least 2 members with
positive pace. -/
theorem guild_validity_counterexample :
    isGuildValid (finalizeGrowthGroupStats (growthGroupStatsOf [((3 : ℝ), 1), (0, 0)])) ∧
    (growthGroupStatsOf [((3 : ℝ), 1), (0, 0)]).count = 2 ∧
    (0 : ℝ) < 3 ∧ ¬ ((0 : ℝ) < 0) := by
  have hst : growthGroupStatsOf [((3 : ℝ), 1), (0, 0)] = ⟨3, 1, 2⟩ := by
    simp [growthGroupStatsOf, addGrowthGroupStats]
  refine ⟨?_, by rw [hst], by norm_num, by norm_num⟩
  rw [hst]
  simp only [finalizeGrowthGroupStats]
  norm_num [isGuildValid, GROWTH_MIN_GUILD_COUNT]

/-- C4 (amended): the guild growth reference uses the custom group if valid,
else the real guild if valid, else the server average (first valid candidate
wins); a candidate group is valid exactly when it has at least 2 sampled
members *and* positive average pace; in particular a guild reference with
only 1 sampled member always falls back to the server average. -/
theorem guild_reference_selection_amended (custom realG : Option GrowthGroupAverages)
    (serverAvg : ℝ) :
    (∀ st : GrowthGroupAverages, isGuildValid (some st) ↔ 2 ≤ st.count ∧ 0 < st.abs) ∧
    (isGuildValid custom →
      (selectGuildReference custom realG serverAvg).refType = GuildRefType.custom) ∧
    (¬ isGuildValid custom → isGuildValid realG →
      (selectGuildReference custom realG serverAvg).refType = GuildRefType.real) ∧
    (¬ isGuildValid custom → ¬ isGuildValid realG →
      selectGuildReference custom realG serverAvg = ⟨serverAvg, 0, GuildRefType.srvAvg⟩) ∧
    (¬ isGuildValid custom → ∀ pace : ℝ × ℝ,
      selectGuildReference custom (finalizeGrowthGroupStats (growthGroupStatsOf [pace])) serverAvg
        = ⟨serverAvg, 0, GuildRefType.srvAvg⟩) := by
  refine ⟨?_, ?_, ?_, ?_, ?_⟩
  · intro st
    simp [isGuildValid, GROWTH_MIN_GUILD_COUNT]
  · intro hc
    simp [selectGuildReference, hc]
  · intro hc hr
    simp [selectGuildReference, hc, hr]
  · intro hc hr
    simp [selectGuildReference, hc, hr]
  · intro hc pace
    have h1 : ¬ isGuildValid (finalizeGrowthGroupStats (growthGroupStatsOf [pace])) := by
      norm_num [growthGroupStatsOf, addGrowthGroupStats, finalizeGrowthGroupStats,
        isGuildValid, GROWTH_MIN_GUILD_COUNT]
    simp [selectGuildReference, hc, h1]

theorem guild_reference_selection_amended_witness :
    isGuildValid (some (⟨1, 1, 2⟩ : GrowthGroupAverages)) ∧
    (selectGuildReference (some (⟨1, 1, 2⟩ : GrowthGroupAverages)) none 7).refType
      = GuildRefType.custom :=
  ⟨⟨by norm_num [GROWTH_MIN_GUILD_COUNT], by norm_num⟩,
   (guild_reference_selection_amended (some ⟨1, 1, 2⟩) none 7).2.1
     ⟨by norm_num [GROWTH_MIN_GUILD_COUNT], by norm_num⟩⟩

/-- C5 counterexample: when no server baseline exists for an interval
(`serverAvg = 0`), the code's consistency ratio is the neutral `1` — not `0`
as the claim states (a `0` ratio would clamp to `0.5`). -/
theorem consistency_ratio_counterexample :
    consRatioCapped 2 0 = 1 ∧
    clamp 0 CONSISTENCY_RATIO_MIN CONSISTENCY_RATIO_MAX = 0.5 ∧
    (1 : ℝ) ≠ 0.5 := by
  refine ⟨?_, ?_, by norm_num⟩
  · simp only [consRatioCapped, clamp, CONSISTENCY_RATIO_MIN, CONSISTENCY_RATIO_MAX]
    norm_num
  · simp only [clamp, CONSISTENCY_RATIO_MIN, CONSISTENCY_RATIO_MAX]
    norm_num

theorem spec_ratios_eq_consRatios (ctx : ScoreCtx) :
    (consIntervals ctx).map
      (fun iv => spec_consRatio iv.perDay (ctx.serverIntervalAvg iv.startDate iv.endDate))
      = consRatios ctx := by
  simp only [consRatios]
  exact List.map_congr_left (fun iv _ => rfl)

theorem consRatios_min_le (ctx : ScoreCtx) : ∀ r ∈ consRatios ctx, CONSISTENCY_RATIO_MIN ≤ r := by
  intro r hr
  rcases List.mem_map.1 hr with ⟨iv, _, rfl⟩
  simp only [consRatioCapped]
  exact clamp_le_lo _ _ _ (by norm_num [CONSISTENCY_RATIO_MIN, CONSISTENCY_RATIO_MAX])

/-- C5 (amended): the consistency sub-score equals the specification's
formula with the baseline-free ratio amended to the neutral `1`: per realized
window interval, `ratio = intervalPerDay / serverAverageForThatSameInterval`
(`1` if no server baseline), clamped to `[0.5, 1.5]`; `x = ln(ratio)`;
`consistency = clamp(0.4·aboveShare + 0.35·closeness + 0.25·stability, 0, 1)`
with `stability = exp(−6·MAD(x))` only when at least 2 intervals exist and a
neutral `0.5` otherwise. -/
theorem consistency_score_amended (ctx : ScoreCtx) :
    (computeScoreForWindow ctx).consistencyScore = spec_consistency ctx := by
  have hx : (consRatios ctx).map (fun r => Real.log (max r CONSISTENCY_EPS))
      = (consRatios ctx).map Real.log := by
    apply List.map_congr_left
    intro r hr
    have h1 : CONSISTENCY_EPS ≤ r :=
      le_trans (by norm_num [CONSISTENCY_EPS, CONSISTENCY_RATIO_MIN]) (consRatios_min_le ctx r hr)
    rw [max_eq_left h1]
  simp only [computeScoreForWindow, spec_consistency, spec_ratios_eq_consRatios, hx]
  by_cases hR : (consRatios ctx).isEmpty
  · have hnil : consRatios ctx = [] := List.isEmpty_iff.1 hR
    simp [hnil]
  · have hne : (consRatios ctx).isEmpty = false := Bool.eq_false_iff.2 hR
    simp only [hne, Bool.false_eq_true, if_false, List.length_map]
    have h2 : (1 < (consRatios ctx).length) = (2 ≤ (consRatios ctx).length) := by
      simp [Nat.lt_iff_add_one_le]
    simp only [h2, CONSISTENCY_GAP_K, CONSISTENCY_MAD_K]

theorem sortByScoreDesc_perm {K β : Type} [LinearOrder β] (players : List (K × β)) :
    List.Perm (sortByScoreDesc players) players :=
  List.perm_insertionSort _ _

theorem sortByScoreDesc_sorted {K β : Type} [LinearOrder β] (players : List (K × β)) :
    (sortByScoreDesc players).Sorted (fun a b => b.2 ≤ a.2) := by
  haveI : IsTotal (K × β) (fun a b => b.2 ≤ a.2) := ⟨fun a b => le_total b.2 a.2⟩
  haveI : IsTrans (K × β) (fun a b => b.2 ≤ a.2) := ⟨fun _ _ _ h1 h2 => le_trans h2 h1⟩
  exact List.sorted_insertionSort _ _

theorem mainList_subset {K β : Type} [LinearOrder β] (players : List (K × β)) :
    mainList players ⊆ players.map Prod.fst := by
  intro x hx
  rcases List.mem_map.1 hx with ⟨q, hq, rfl⟩
  exact List.mem_map_of_mem _ ((sortByScoreDesc_perm players).subset (List.take_subset _ _ hq))

theorem wingList_subset {K β : Type} [LinearOrder β] (players : List (K × β)) :
    wingList players ⊆ players.map Prod.fst := by
  intro x hx
  rcases List.mem_map.1 hx with ⟨q, hq, rfl⟩
  exact List.mem_map_of_mem _
    ((sortByScoreDesc_perm players).subset (List.drop_subset _ _ (List.take_subset _ _ hq)))

/-- C8 (amended): `computeDataset` does *not* partition the global
population independently; it assigns every global player the recommendation
looked up in the roster-derived Main/Wing key lists, so a global player whose
key is not in the roster population always receives None — even if an
independent partition of the global population would place it in Main. -/
theorem global_recommendation_amended {K β : Type} [DecidableEq K] [LinearOrder β]
    (roster : List (K × β)) (k : K) (h : k ∉ roster.map Prod.fst) :
    recommendationFor roster k = Recommendation.nothing := by
  have hm : k ∉ mainList roster := fun hk => h (mainList_subset roster hk)
  have hw : k ∉ wingList roster := fun hk => h (wingList_subset roster hk)
  simp [recommendationFor, hm, hw]

theorem global_recommendation_amended_witness :
    (0 : Nat) ∉ ([((1 : Nat), (2 : ℚ))].map Prod.fst) ∧
    recommendationFor [((1 : Nat), (2 : ℚ))] 0 = Recommendation.nothing :=
  ⟨by decide, global_recommendation_amended [((1 : Nat), (2 : ℚ))] 0 (by decide)⟩

/-- C8 counterexample: with an empty roster and the global population
consisting of the single player `0` with score `1`, the code assigns that
global player None (its key is in neither roster-derived list), while the
claim's independent partition of the global population would assign it Main
(index `0` of the sorted global population). -/
theorem global_recommendation_counterexample :
    recommendationFor ([] : List (Nat × ℚ)) 0 = Recommendation.nothing ∧
    recommendationFor [((0 : Nat), (1 : ℚ))] 0 = Recommendation.main ∧
    Recommendation.nothing ≠ Recommendation.main :=
  ⟨by decide, by decide, by decide⟩

/-- C9 counterexample: a player observed in exactly one snapshot does *not*
get `null` window metrics — `resolveWindowPoints` resolves both boundaries to
that single point, so every window metric is the degenerate metric with
`delta = 0`, `days = 1`, `perDay = 0`. -/
theorem single_snapshot_counterexample :
    windowMetricFor [({ date := 100, baseStats := 7, level := 1, mine := 0, treasury := 0 } :
        PointQ)] 3 (fun q => q.baseStats) = some ⟨100, 100, 1, 0, 0⟩ ∧
    some (⟨100, 100, 1, 0, 0⟩ : IntervalMetric ℚ) ≠ (none : Option (IntervalMetric ℚ)) := by
  refine ⟨?_, by simp⟩
  simp [windowMetricFor, resolveWindowPoints, buildMonthKeys, resolveWindowRange,
    monthBucket, buildWindowMetric, diffDays]

/-- C9 (amended): a player observed in exactly one snapshot ends up with all
per-metric interval lists empty (the selector is universally quantified, so
this covers all four metrics); its window metrics are *not* null but
degenerate single-point metrics (`startDate = endDate`, `days = 1`,
`delta = 0`, `perDay = 0`) for every window key; and if that player is the
only entry in the percentile comparison set, its percentile is `1`. -/
theorem single_snapshot_amended (p : PointQ) (N : Nat) (sel : PointQ → ℚ) (k : Nat) (v : ℚ) :
    buildIntervals sel [p] = [] ∧
    windowMetricFor [p] N sel = some ⟨p.date, p.date, 1, 0, 0⟩ ∧
    computePercentiles [(k, v)] = [(k, 1)] := by
  refine ⟨rfl, ?_, ?_⟩
  · simp [windowMetricFor, resolveWindowPoints, buildMonthKeys, resolveWindowRange,
      monthBucket, buildWindowMetric, diffDays]
  · simp [computePercentiles, sortEntries, List.insertionSort, pctRun, pctOf]

theorem sortEntries_perm (entries : List PEntry) : List.Perm (sortEntries entries) entries :=
  List.perm_insertionSort _ _

theorem sortEntries_sorted (entries : List PEntry) :
    (sortEntries entries).Sorted (fun a b => a.2 ≤ b.2) := by
  haveI : IsTotal PEntry (fun a b => a.2 ≤ b.2) := ⟨fun a b => le_total a.2 b.2⟩
  haveI : IsTrans PEntry (fun a b => a.2 ≤ b.2) := ⟨fun _ _ _ => le_trans⟩
  exact List.sorted_insertionSort _ _

theorem countLT_sortEntries (entries : List PEntry) (v : ℚ) :
    countLT (sortEntries entries) v = countLT entries v := by
  unfold countLT
  exact ((sortEntries_perm entries).filter _).length_eq

theorem countLE_sortEntries (entries : List PEntry) (v : ℚ) :
    countLE (sortEntries entries) v = countLE entries v := by
  unfold countLE
  exact ((sortEntries_perm entries).filter _).length_eq

theorem dropWhile_gt_of_sorted (v : ℚ) :
    ∀ (rest : List PEntry), (∀ x ∈ rest, v ≤ x.2) →
      rest.Sorted (fun a b => a.2 ≤ b.2) →
      ∀ x ∈ rest.dropWhile (fun f => decide (f.2 = v)), v < x.2 := by
  intro rest
  induction rest with
  | nil =>
    intro _ _ x hx
    simp at hx
  | cons a t ih =>
    intro hge hs x hx
    by_cases ha : a.2 = v
    · rw [List.dropWhile_cons_of_pos (by simpa using ha)] at hx
      exact ih (fun y hy => hge y (List.mem_cons_of_mem _ hy)) hs.of_cons x hx
    · rw [List.dropWhile_cons_of_neg (by simpa using ha)] at hx
      have hav : v < a.2 := lt_of_le_of_ne (hge a (List.mem_cons_self _ _)) (Ne.symm ha)
      rcases List.mem_cons.1 hx with rfl | hx
      · exact hav
      · exact lt_of_lt_of_le hav (List.rel_of_sorted_cons hs x hx)

theorem run_split (f : PEntry) (rest : List PEntry) :
    f :: rest = (f :: rest.takeWhile (fun g => decide (g.2 = f.2))) ++
      rest.dropWhile (fun g => decide (g.2 = f.2)) := by
  rw [List.cons_append, List.takeWhile_append_dropWhile]

theorem head_run_countLT (f : PEntry) (rest : List PEntry)
    (hs : (f :: rest).Sorted (fun a b => a.2 ≤ b.2)) : countLT (f :: rest) f.2 = 0 := by
  unfold countLT
  rw [List.length_eq_zero, List.filter_eq_nil_iff]
  intro a ha
  rcases List.mem_cons.1 ha with rfl | ha
  · simp
  · have := List.rel_of_sorted_cons hs a ha
    simp only [decide_eq_true_eq]
    exact not_lt.2 this

theorem head_run_countLE (f : PEntry) (rest : List PEntry)
    (hs : (f :: rest).Sorted (fun a b => a.2 ≤ b.2)) :
    countLE (f :: rest) f.2 = (f :: rest.takeWhile (fun g => decide (g.2 = f.2))).length := by
  unfold countLE
  conv_lhs => rw [run_split f rest]
  rw [List.filter_append, List.length_append]
  have h1 : List.filter (fun e => decide (e.2 ≤ f.2))
      (f :: rest.takeWhile (fun g => decide (g.2 = f.2)))
      = f :: rest.takeWhile (fun g => decide (g.2 = f.2)) := by
    rw [List.filter_eq_self]
    intro a ha
    rcases List.mem_cons.1 ha with rfl | ha
    · simp
    · have : a.2 = f.2 := by simpa using List.mem_takeWhile_imp ha
      simp [this]
  have h2 : List.filter (fun e => decide (e.2 ≤ f.2))
      (rest.dropWhile (fun g => decide (g.2 = f.2))) = [] := by
    rw [List.filter_eq_nil_iff]
    intro a ha
    have hgt : f.2 < a.2 :=
      dropWhile_gt_of_sorted f.2 rest (List.rel_of_sorted_cons hs) hs.of_cons a ha
    simp only [decide_eq_true_eq]
    exact not_le.2 hgt
  rw [h1, h2]
  simp

theorem drop_run_counts (f : PEntry) (rest : List PEntry)
    (hs : (f :: rest).Sorted (fun a b => a.2 ≤ b.2)) (e : PEntry)
    (he : e ∈ rest.dropWhile (fun g => decide (g.2 = f.2))) :
    countLT (f :: rest) e.2
      = (f :: rest.takeWhile (fun g => decide (g.2 = f.2))).length +
        countLT (rest.dropWhile (fun g => decide (g.2 = f.2))) e.2 ∧
    countLE (f :: rest) e.2
      = (f :: rest.takeWhile (fun g => decide (g.2 = f.2))).length +
        countLE (rest.dropWhile (fun g => decide (g.2 = f.2))) e.2 := by
  have hev : f.2 < e.2 :=
    dropWhile_gt_of_sorted f.2 rest (List.rel_of_sorted_cons hs) hs.of_cons e he
  have hrunval : ∀ a ∈ f :: rest.takeWhile (fun g => decide (g.2 = f.2)), a.2 = f.2 := by
    intro a ha
    rcases List.mem_cons.1 ha with rfl | ha
    · rfl
    · simpa using List.mem_takeWhile_imp ha
  constructor
  · unfold countLT
    conv_lhs => rw [run_split f rest]
    rw [List.filter_append, List.length_append]
    have h1 : List.filter (fun x => decide (x.2 < e.2))
        (f :: rest.takeWhile (fun g => decide (g.2 = f.2)))
        = f :: rest.takeWhile (fun g => decide (g.2 = f.2)) := by
      rw [List.filter_eq_self]
      intro a ha
      simp [hrunval a ha, hev]
    rw [h1]
  · unfold countLE
    conv_lhs => rw [run_split f rest]
    rw [List.filter_append, List.length_append]
    have h1 : List.filter (fun x => decide (x.2 ≤ e.2))
        (f :: rest.takeWhile (fun g => decide (g.2 = f.2)))
        = f :: rest.takeWhile (fun g => decide (g.2 = f.2)) := by
      rw [List.filter_eq_self]
      intro a ha
      simp [hrunval a ha, le_of_lt hev]
    rw [h1]

theorem pctRun_mem (n : Nat) :
    ∀ (m : Nat) (l : List PEntry), l.length ≤ m → ∀ (i : Nat),
      l.Sorted (fun a b => a.2 ≤ b.2) →
      ∀ e ∈ l, (e.1, pctOf n (i + countLT l e.2) (i + countLE l e.2)) ∈ pctRun n i l := by
  intro m
  induction m with
  | zero =>
    intro l hl _ _ e he
    rw [Nat.le_zero, List.length_eq_zero] at hl
    subst hl
    simp at he
  | succ m ih =>
    intro l hl i hs e he
    match l, hl, hs, he with
    | [], _, _, he => exact absurd he (List.not_mem_nil e)
    | f :: rest, hl, hs, he =>
      simp only [pctRun]
      have he' : e ∈ (f :: rest.takeWhile (fun g => decide (g.2 = f.2))) ++
          rest.dropWhile (fun g => decide (g.2 = f.2)) := by
        rw [← run_split f rest]
        exact he
      rcases List.mem_append.1 he' with hrun | hdrop
      · have hev : e.2 = f.2 := by
          rcases List.mem_cons.1 hrun with rfl | h
          · rfl
          · simpa using List.mem_takeWhile_imp h
        rw [hev, head_run_countLT f rest hs, head_run_countLE f rest hs, Nat.add_zero]
        exact List.mem_append_left _ (List.mem_map_of_mem _ hrun)
      · obtain ⟨hLT, hLE⟩ := drop_run_counts f rest hs e hdrop
        rw [hLT, hLE, ← Nat.add_assoc, ← Nat.add_assoc]
        refine List.mem_append_right _ ?_
        have hlen : (rest.dropWhile (fun g => decide (g.2 = f.2))).length ≤ m := by
          have h1 : (rest.dropWhile (fun g => decide (g.2 = f.2))).length ≤ rest.length :=
            (List.dropWhile_sublist _).length_le
          have h2 : rest.length + 1 ≤ m + 1 := by simpa using hl
          omega
        have hsd : (rest.dropWhile (fun g => decide (g.2 = f.2))).Sorted
            (fun a b => a.2 ≤ b.2) :=
          List.Pairwise.sublist (List.dropWhile_sublist _) hs.of_cons
        exact ih _ hlen _ hsd e hdrop

theorem takeWhile_run_length_le (f : PEntry) (rest : List PEntry) :
    (f :: rest.takeWhile (fun g => decide (g.2 = f.2))).length ≤ (f :: rest).length := by
  simp only [List.length_cons]
  exact Nat.succ_le_succ (List.takeWhile_sublist _).length_le

theorem pctRun_bounds (n : Nat) :
    ∀ (m : Nat) (l : List PEntry), l.length ≤ m → ∀ (i : Nat),
      ∀ q ∈ pctRun n i l, ∃ a b : Nat, i ≤ a ∧ a < b ∧ b ≤ i + l.length ∧ q.2 = pctOf n a b := by
  intro m
  induction m with
  | zero =>
    intro l hl _ q hq
    rw [Nat.le_zero, List.length_eq_zero] at hl
    subst hl
    simp [pctRun] at hq
  | succ m ih =>
    intro l hl i q hq
    match l, hl, hq with
    | [], _, hq => simp [pctRun] at hq
    | f :: rest, hl, hq =>
      simp only [pctRun] at hq
      rcases List.mem_append.1 hq with hmap | hrec
      · rcases List.mem_map.1 hmap with ⟨g, _, rfl⟩
        refine ⟨i, i + (f :: rest.takeWhile (fun x => decide (x.2 = f.2))).length,
          le_rfl, ?_, ?_, rfl⟩
        · simp
        · have := takeWhile_run_length_le f rest
          omega
      · have hlen : (rest.dropWhile (fun g => decide (g.2 = f.2))).length ≤ m := by
          have h1 : (rest.dropWhile (fun g => decide (g.2 = f.2))).length ≤ rest.length :=
            (List.dropWhile_sublist _).length_le
          have h2 : rest.length + 1 ≤ m + 1 := by simpa using hl
          omega
        obtain ⟨a, b, ha, hab, hbn, hq2⟩ := ih _ hlen _ q hrec
        refine ⟨a, b, ?_, hab, ?_, hq2⟩
        · omega
        · have hsum : (f :: rest.takeWhile (fun g => decide (g.2 = f.2))).length +
              (rest.dropWhile (fun g => decide (g.2 = f.2))).length = (f :: rest).length := by
            conv_rhs => rw [run_split f rest]
            rw [List.length_append]
          omega

theorem pctOf_bounds (n a b : Nat) (hab : a < b) (hbn : b ≤ n) :
    0 ≤ pctOf n a b ∧ pctOf n a b ≤ 1 := by
  unfold pctOf
  split_ifs with h1
  · norm_num
  · have hn2 : 2 ≤ n := by omega
    have hb1 : 1 ≤ b := by omega
    have hbq : (1 : ℚ) ≤ (b : ℚ) := by exact_mod_cast hb1
    have haq : (0 : ℚ) ≤ (a : ℚ) := Nat.cast_nonneg a
    have hnq : (2 : ℚ) ≤ (n : ℚ) := by exact_mod_cast hn2
    have han : (a : ℚ) + 1 ≤ (n : ℚ) := by exact_mod_cast (by omega : a + 1 ≤ n)
    have hbnq : (b : ℚ) ≤ (n : ℚ) := by exact_mod_cast hbn
    constructor
    · apply div_nonneg
      · apply div_nonneg <;> linarith
      · linarith
    · rw [div_le_one (by linarith)]
      rw [div_le_iff₀ (by norm_num : (0 : ℚ) < 2)]
      linarith

theorem computePercentiles_bounded (entries : List PEntry) :
    ∀ q ∈ computePercentiles entries, 0 ≤ q.2 ∧ q.2 ≤ 1 := by
  intro q hq
  obtain ⟨a, b, _, hab, hbn, hq2⟩ :=
    pctRun_bounds entries.length (sortEntries entries).length (sortEntries entries) le_rfl 0 q hq
  rw [hq2]
  have hlen : (sortEntries entries).length = entries.length := (sortEntries_perm entries).length_eq
  exact pctOf_bounds _ a b hab (by omega)

theorem countLE_split (l : List PEntry) (v : ℚ) :
    countLE l v = countLT l v + (l.filter (fun e => decide (e.2 = v))).length := by
  induction l with
  | nil => rfl
  | cons a t ih =>
    unfold countLE countLT at ih ⊢
    simp only [List.filter_cons]
    rcases lt_trichotomy a.2 v with h | h | h
    · have h1 : decide (a.2 ≤ v) = true := decide_eq_true h.le
      have h2 : decide (a.2 < v) = true := decide_eq_true h
      have h3 : decide (a.2 = v) = false := decide_eq_false (ne_of_lt h)
      simp only [h1, h2, h3, if_true, Bool.false_eq_true, if_false, List.length_cons]
      omega
    · have h1 : decide (a.2 ≤ v) = true := decide_eq_true h.le
      have h2 : decide (a.2 < v) = false := decide_eq_false (by simp [h])
      have h3 : decide (a.2 = v) = true := decide_eq_true h
      simp only [h1, h2, h3, if_true, Bool.false_eq_true, if_false, List.length_cons]
      omega
    · have h1 : decide (a.2 ≤ v) = false := decide_eq_false (not_le.2 h)
      have h2 : decide (a.2 < v) = false := decide_eq_false (by exact not_lt.2 h.le)
      have h3 : decide (a.2 = v) = false := decide_eq_false (ne_of_gt h)
      simp only [h1, h2, h3, Bool.false_eq_true, if_false]
      omega

theorem filter_value_length_eq_count (l : List PEntry) (v : ℚ) :
    (l.filter (fun e => decide (e.2 = v))).length = (l.map Prod.snd).count v := by
  induction l with
  | nil => rfl
  | cons a t ih =>
    simp only [List.filter_cons, List.map_cons, List.count_cons]
    by_cases h : a.2 = v
    · simp [h, ih]
    · simp [h, ih, Ne.symm h]

theorem sorted_filter_partition (v : ℚ) :
    ∀ (l : List PEntry), l.Sorted (fun a b => a.2 ≤ b.2) →
      l = l.filter (fun x => decide (x.2 < v)) ++ l.filter (fun x => decide (x.2 = v)) ++
          l.filter (fun x => decide (v < x.2)) := by
  intro l
  induction l with
  | nil => intro _; rfl
  | cons a t ih =>
    intro hs
    have ht := ih hs.of_cons
    have hge := List.rel_of_sorted_cons hs
    simp only [List.filter_cons]
    rcases lt_trichotomy a.2 v with h | h | h
    · have h1 : decide (a.2 < v) = true := decide_eq_true h
      have h2 : decide (a.2 = v) = false := decide_eq_false (ne_of_lt h)
      have h3 : decide (v < a.2) = false := decide_eq_false (not_lt.2 h.le)
      simp only [h1, h2, h3, if_true, Bool.false_eq_true, if_false, List.cons_append]
      exact congrArg (a :: ·) ht
    · have h1 : decide (a.2 < v) = false := decide_eq_false (by simp [h])
      have h2 : decide (a.2 = v) = true := decide_eq_true h
      have h3 : decide (v < a.2) = false := decide_eq_false (by simp [h])
      have hF1 : List.filter (fun x => decide (x.2 < v)) t = [] := by
        rw [List.filter_eq_nil_iff]
        intro x hx
        have := hge x hx
        simp only [decide_eq_true_eq]
        exact not_lt.2 (h ▸ this)
      simp only [h1, h2, h3, if_true, Bool.false_eq_true, if_false, hF1, List.nil_append]
      rw [hF1] at ht
      simpa using congrArg (a :: ·) ht
    · have h1 : decide (a.2 < v) = false := decide_eq_false (not_lt.2 h.le)
      have h2 : decide (a.2 = v) = false := decide_eq_false (ne_of_gt h)
      have h3 : decide (v < a.2) = true := decide_eq_true h
      have hF1 : List.filter (fun x => decide (x.2 < v)) t = [] := by
        rw [List.filter_eq_nil_iff]
        intro x hx
        have := le_trans h.le (hge x hx)
        simp only [decide_eq_true_eq]
        exact not_lt.2 this
      have hF2 : List.filter (fun x => decide (x.2 = v)) t = [] := by
        rw [List.filter_eq_nil_iff]
        intro x hx
        have := lt_of_lt_of_le h (hge x hx)
        simp only [decide_eq_true_eq]
        exact ne_of_gt this
      simp only [h1, h2, h3, if_true, Bool.false_eq_true, if_false, hF1, hF2, List.nil_append]
      rw [hF1, hF2] at ht
      simpa using congrArg (a :: ·) ht

/-- C2: the percentile engine characterized.  The maximal run of entries tied
at value `v` occupies indices `[countLT v, countLE v)` of the ascending sort
(last conjunct), and every key of such a run is assigned the percentile
`((i + j − 1)/2)/(n − 1)` with `i = countLT v`, `j = countLE v` (stated both
through `pctOf`, which carries the `n = 1 → 1` case, and as the raw formula
for `n ≥ 2`).  Consequently keys sharing a value receive the same percentile
(the assigned value depends only on `v`), with all-distinct values each key
receives `sorted-index/(n−1)`, a single-entry map yields percentile `1`, and
every output lies in `[0, 1]`. -/
theorem computePercentiles_characterization (entries : List PEntry) :
    (∀ e ∈ entries,
        (e.1, pctOf entries.length (countLT entries e.2) (countLE entries e.2)) ∈
          computePercentiles entries) ∧
    (2 ≤ entries.length → ∀ e ∈ entries,
        (e.1, ((countLT entries e.2 : ℚ) + ((countLE entries e.2 : ℚ) - 1)) / 2 /
              ((entries.length : ℚ) - 1)) ∈ computePercentiles entries) ∧
    ((entries.map Prod.snd).Nodup → 2 ≤ entries.length → ∀ e ∈ entries,
        (e.1, (countLT entries e.2 : ℚ) / ((entries.length : ℚ) - 1)) ∈
          computePercentiles entries) ∧
    (∀ (k : Nat) (v : ℚ), computePercentiles [(k, v)] = [(k, 1)]) ∧
    (∀ q ∈ computePercentiles entries, 0 ≤ q.2 ∧ q.2 ≤ 1) ∧
    (∀ e ∈ entries,
        sortEntries entries =
          (sortEntries entries).filter (fun x => decide (x.2 < e.2)) ++
          (sortEntries entries).filter (fun x => decide (x.2 = e.2)) ++
          (sortEntries entries).filter (fun x => decide (e.2 < x.2)) ∧
        countLT (sortEntries entries) e.2 = countLT entries e.2 ∧
        countLE (sortEntries entries) e.2 = countLE entries e.2) := by
  have hmain : ∀ e ∈ entries,
      (e.1, pctOf entries.length (countLT entries e.2) (countLE entries e.2)) ∈
        computePercentiles entries := by
    intro e he
    have hs := sortEntries_sorted entries
    have he' : e ∈ sortEntries entries := (sortEntries_perm entries).mem_iff.2 he
    have h0 := pctRun_mem entries.length (sortEntries entries).length (sortEntries entries)
      le_rfl 0 hs e he'
    rw [countLT_sortEntries, countLE_sortEntries] at h0
    simpa [computePercentiles] using h0
  refine ⟨hmain, ?_, ?_, ?_, computePercentiles_bounded entries, ?_⟩
  · intro hn e he
    have h1 := hmain e he
    have heq : pctOf entries.length (countLT entries e.2) (countLE entries e.2)
        = ((countLT entries e.2 : ℚ) + ((countLE entries e.2 : ℚ) - 1)) / 2 /
          ((entries.length : ℚ) - 1) := by
      unfold pctOf
      rw [if_neg (by omega)]
    rw [heq] at h1
    exact h1
  · intro hnd hn e he
    have h1 := hmain e he
    have hle : countLE entries e.2 = countLT entries e.2 + 1 := by
      rw [countLE_split, filter_value_length_eq_count]
      have : (entries.map Prod.snd).count e.2 = 1 :=
        List.count_eq_one_of_mem hnd (List.mem_map_of_mem _ he)
      omega
    rw [hle] at h1
    have heq : pctOf entries.length (countLT entries e.2) (countLT entries e.2 + 1)
        = (countLT entries e.2 : ℚ) / ((entries.length : ℚ) - 1) := by
      unfold pctOf
      rw [if_neg (by omega)]
      push_cast
      ring
    rw [heq] at h1
    exact h1
  · intro k v
    simp [computePercentiles, sortEntries, List.insertionSort, pctRun, pctOf]
  · intro e he
    exact ⟨sorted_filter_partition e.2 (sortEntries entries) (sortEntries_sorted entries),
      countLT_sortEntries entries e.2, countLE_sortEntries entries e.2⟩

theorem computePercentiles_characterization_witness :
    2 ≤ ([((0 : Nat), (1 : ℚ)), (1, 1), (2, 2)] : List PEntry).length ∧
    ((0 : Nat),
        ((countLT [((0 : Nat), (1 : ℚ)), (1, 1), (2, 2)] 1 : ℚ) +
         ((countLE [((0 : Nat), (1 : ℚ)), (1, 1), (2, 2)] 1 : ℚ) - 1)) / 2 /
        ((([((0 : Nat), (1 : ℚ)), (1, 1), (2, 2)] : List PEntry).length : ℚ) - 1)) ∈
      computePercentiles [((0 : Nat), (1 : ℚ)), (1, 1), (2, 2)] :=
  ⟨by decide,
   (computePercentiles_characterization [((0 : Nat), (1 : ℚ)), (1, 1), (2, 2)]).2.1
     (by decide) ((0 : Nat), (1 : ℚ)) (by decide)⟩

theorem mem_map_fst_iff_of_nodup {K β : Type} (l sub : List (K × β))
    (hnd : (l.map Prod.fst).Nodup) (hsub : sub ⊆ l) {p : K × β} (hp : p ∈ l) :
    p.1 ∈ sub.map Prod.fst ↔ p ∈ sub := by
  constructor
  · intro hx
    rcases List.mem_map.1 hx with ⟨q, hq, hqp⟩
    have : q = p := List.inj_on_of_nodup_map hnd (hsub hq) hp hqp
    exact this ▸ hq
  · exact List.mem_map_of_mem _

theorem recommendationFor_cases {K β : Type} [DecidableEq K] [LinearOrder β]
    (players : List (K × β)) (hnd : (players.map Prod.fst).Nodup) (p : K × β)
    (hp : p ∈ players) :
    (recommendationFor players p.1 = Recommendation.main ↔
      p ∈ (sortByScoreDesc players).take 50) ∧
    (recommendationFor players p.1 = Recommendation.wing ↔
      (p ∉ (sortByScoreDesc players).take 50 ∧
        p ∈ ((sortByScoreDesc players).drop 50).take 50)) ∧
    (recommendationFor players p.1 = Recommendation.nothing ↔
      (p ∉ (sortByScoreDesc players).take 50 ∧
        p ∉ ((sortByScoreDesc players).drop 50).take 50)) := by
  have hndS : ((sortByScoreDesc players).map Prod.fst).Nodup :=
    ((sortByScoreDesc_perm players).map Prod.fst).nodup_iff.2 hnd
  have hpS : p ∈ sortByScoreDesc players := (sortByScoreDesc_perm players).mem_iff.2 hp
  have hA : p.1 ∈ mainList players ↔ p ∈ (sortByScoreDesc players).take 50 :=
    mem_map_fst_iff_of_nodup _ _ hndS (List.take_subset _ _) hpS
  have hB : p.1 ∈ wingList players ↔ p ∈ ((sortByScoreDesc players).drop 50).take 50 :=
    mem_map_fst_iff_of_nodup _ _ hndS
      (fun x hx => List.drop_subset _ _ (List.take_subset _ _ hx)) hpS
  unfold recommendationFor
  split_ifs with h1 h2
  · have hpa := hA.1 h1
    exact ⟨by simp [hpa], by simp [hpa], by simp [hpa]⟩
  · have hna : p ∉ (sortByScoreDesc players).take 50 := fun h => h1 (hA.2 h)
    have hpb := hB.1 h2
    exact ⟨by simp [hna], by simp [hna, hpb], by simp [hpb]⟩
  · have hna : p ∉ (sortByScoreDesc players).take 50 := fun h => h1 (hA.2 h)
    have hnb : p ∉ ((sortByScoreDesc players).drop 50).take 50 := fun h => h2 (hB.2 h)
    exact ⟨by simp [hna], by simp [hna, hnb], by simp [hna, hnb]⟩

theorem filter_length_le_of_iff_mem {α : Type} (players s sub : List α)
    (hperm : List.Perm s players) (hSnodup : s.Nodup) (pred : α → Bool)
    (hiff : ∀ p ∈ s, pred p = true ↔ p ∈ sub) :
    (players.filter pred).length ≤ sub.length := by
  have h1 : (players.filter pred).length = (s.filter pred).length :=
    ((hperm.filter pred).length_eq).symm
  rw [h1]
  have h2 : s.filter pred ⊆ sub := by
    intro x hx
    rcases List.mem_filter.1 hx with ⟨hxs, hxp⟩
    exact (hiff x hxs).1 hxp
  exact (List.subperm_of_subset (hSnodup.filter _) h2).length_le

theorem length_filter_rec_partition {α : Type} (l : List α) (f : α → Recommendation) :
    (l.filter (fun x => decide (f x = Recommendation.main))).length +
    (l.filter (fun x => decide (f x = Recommendation.wing))).length +
    (l.filter (fun x => decide (f x = Recommendation.nothing))).length = l.length := by
  induction l with
  | nil => rfl
  | cons a t ih =>
    simp only [List.filter_cons]
    cases h : f a <;> simp only [h, decide_eq_true_eq] <;> simp <;> omega

/-- C7: the roster recommendation partition: at most 50 Main players, at most
50 Wing players, the three tiers are disjoint and together cover exactly the
full roster population (their filtered counts sum to the roster size), and
membership is consistent with descending default-window score: every Main
player's score is at least every Wing player's score, and both are at least
every None player's score.  The hypothesis is that roster player keys are
distinct — which holds in `computeDataset`, where `players` is built from a
map keyed by `playerKey`. -/
theorem recommendation_partition {K β : Type} [DecidableEq K] [LinearOrder β]
    (players : List (K × β)) (hnd : (players.map Prod.fst).Nodup) :
    (players.filter (fun p => recommendationFor players p.1 = Recommendation.main)).length ≤ 50 ∧
    (players.filter (fun p => recommendationFor players p.1 = Recommendation.wing)).length ≤ 50 ∧
    (players.filter (fun p => recommendationFor players p.1 = Recommendation.main)).length +
      (players.filter (fun p => recommendationFor players p.1 = Recommendation.wing)).length +
      (players.filter (fun p => recommendationFor players p.1 = Recommendation.nothing)).length
      = players.length ∧
    (∀ p ∈ players, ∀ q ∈ players,
      (recommendationFor players p.1 = Recommendation.main →
        recommendationFor players q.1 = Recommendation.wing → q.2 ≤ p.2) ∧
      (recommendationFor players p.1 = Recommendation.main →
        recommendationFor players q.1 = Recommendation.nothing → q.2 ≤ p.2) ∧
      (recommendationFor players p.1 = Recommendation.wing →
        recommendationFor players q.1 = Recommendation.nothing → q.2 ≤ p.2)) := by
  have hsorted := sortByScoreDesc_sorted players
  have hperm := sortByScoreDesc_perm players
  have hndS : ((sortByScoreDesc players).map Prod.fst).Nodup :=
    (hperm.map Prod.fst).nodup_iff.2 hnd
  have hSnodup : (sortByScoreDesc players).Nodup := hndS.of_map
  have htake100 : (sortByScoreDesc players).take 100
      = (sortByScoreDesc players).take 50 ++ ((sortByScoreDesc players).drop 50).take 50 := by
    have h : (100 : Nat) = 50 + 50 := by norm_num
    rw [h, List.take_add]
  have hnone_drop : ∀ q ∈ players,
      recommendationFor players q.1 = Recommendation.nothing →
        q ∈ (sortByScoreDesc players).drop 100 := by
    intro q hq hrec
    obtain ⟨hqnA, hqnB⟩ := (recommendationFor_cases players hnd q hq).2.2.1 hrec
    have hqs : q ∈ sortByScoreDesc players := hperm.mem_iff.2 hq
    rw [← List.take_append_drop 100 (sortByScoreDesc players)] at hqs
    rcases List.mem_append.1 hqs with h100 | h
    · exfalso
      rw [htake100] at h100
      rcases List.mem_append.1 h100 with h | h
      · exact hqnA h
      · exact hqnB h
    · exact h
  refine ⟨?_, ?_, ?_, ?_⟩
  · have := filter_length_le_of_iff_mem players (sortByScoreDesc players)
      ((sortByScoreDesc players).take 50) hperm hSnodup
      (fun p => decide (recommendationFor players p.1 = Recommendation.main))
      (fun p hpS => by
        rw [decide_eq_true_eq]
        exact (recommendationFor_cases players hnd p (hperm.subset hpS)).1)
    exact le_trans this (List.length_take_le 50 (sortByScoreDesc players))
  · have := filter_length_le_of_iff_mem players (sortByScoreDesc players)
      ((((sortByScoreDesc players).drop 50).take 50).filter
        (fun x => decide (x ∉ (sortByScoreDesc players).take 50))) hperm hSnodup
      (fun p => decide (recommendationFor players p.1 = Recommendation.wing))
      (fun p hpS => by
        rw [decide_eq_true_eq]
        constructor
        · intro h
          obtain ⟨hna, hb⟩ := (recommendationFor_cases players hnd p (hperm.subset hpS)).2.1.1 h
          exact List.mem_filter.2 ⟨hb, by simpa using hna⟩
        · intro h
          rcases List.mem_filter.1 h with ⟨hb, hna⟩
          exact (recommendationFor_cases players hnd p (hperm.subset hpS)).2.1.2
            ⟨by simpa using hna, hb⟩)
    exact le_trans this (le_trans (List.length_filter_le _ _)
      (List.length_take_le 50 ((sortByScoreDesc players).drop 50)))
  · exact length_filter_rec_partition players (fun p => recommendationFor players p.1)
  · intro p hp q hq
    refine ⟨?_, ?_, ?_⟩
    · intro h1 h2
      have hpA := (recommendationFor_cases players hnd p hp).1.1 h1
      obtain ⟨_, hqB⟩ := (recommendationFor_cases players hnd q hq).2.1.1 h2
      exact hsorted.rel_of_mem_take_of_mem_drop hpA (List.take_subset _ _ hqB)
    · intro h1 h2
      have hpA := (recommendationFor_cases players hnd p hp).1.1 h1
      have hpA100 : p ∈ (sortByScoreDesc players).take 100 :=
        List.take_subset_take_left _ (by norm_num) hpA
      exact hsorted.rel_of_mem_take_of_mem_drop hpA100 (hnone_drop q hq h2)
    · intro h1 h2
      obtain ⟨_, hpB⟩ := (recommendationFor_cases players hnd p hp).2.1.1 h1
      have hpB100 : p ∈ (sortByScoreDesc players).take 100 := by
        rw [htake100]
        exact List.mem_append_right _ hpB
      exact hsorted.rel_of_mem_take_of_mem_drop hpB100 (hnone_drop q hq h2)

theorem recommendation_partition_witness :
    (([((0 : Nat), (2 : ℚ)), (1, 1)] : List (Nat × ℚ)).map Prod.fst).Nodup ∧
    (([((0 : Nat), (2 : ℚ)), (1, 1)] : List (Nat × ℚ)).filter
      (fun p => recommendationFor [((0 : Nat), (2 : ℚ)), (1, 1)] p.1
        = Recommendation.main)).length ≤ 50 :=
  ⟨by decide, (recommendation_partition [((0 : Nat), (2 : ℚ)), (1, 1)] (by decide)).1⟩

end Analytics
